import Mathlib

/-!
Shallow embedding of the GTD cleaning script (src/pyspark_etl/gtd_cleaning.py).

A table is an ordered list of named columns over a shared row index; a cell is
either the missing marker (pandas NaN), a numeric value (modelled as an
integer), or a piece of text.  Each pipeline step of the script is translated
into a Lean function on `Table`; steps that can raise a `KeyError` (a bare
`df[col]` access on an absent column) return `Except String Table`.
-/

inductive Val where
  | na : Val
  | num : Int → Val
  | str : String → Val
deriving DecidableEq

structure Column where
  name : String
  isText : Bool
  cells : List Val
deriving DecidableEq

structure Table where
  nrows : Nat
  cols : List Column
deriving DecidableEq

def isNa : Val → Bool
  | .na => true
  | _ => false

def colNames (t : Table) : List String := t.cols.map (fun c => c.name)

def getCol (t : Table) (n : String) : Option Column := t.cols.find? (fun c => c.name = n)

def hasCol (t : Table) (n : String) : Bool := (getCol t n).isSome

/-- `df[n] = f(df[n])`: rewrite every column named `n` with `f`. -/
def setCol (t : Table) (n : String) (f : Column → Column) : Table :=
  { t with cols := t.cols.map (fun c => if c.name = n then f c else c) }

def getCell (t : Table) (n : String) (i : Nat) : Option Val :=
  (getCol t n).bind (fun c => c.cells.get? i)

/-- `∀ c ∈ t.cols, c.cells.length = t.nrows`: every column spans the row index. -/
def lenOK (t : Table) : Prop := ∀ c ∈ t.cols, c.cells.length = t.nrows

instance (t : Table) : Decidable (lenOK t) := List.decidableBAll _ _

/-! ### Step 3: text normalization (lines 13-19) -/

def placeholder_vals : List String :=
  ["unknown", "not applicable", "unk", "none", "nan", ""]

/-- `.str.lower()`: ASCII lowercasing, written over `List Char` so that it
reduces in the kernel. -/
def toLowerStr (s : String) : String := String.mk (s.data.map Char.toLower)

/-- `.str.strip()`: drop leading and trailing whitespace. -/
def trimStr (s : String) : String :=
  String.mk (((s.data.dropWhile Char.isWhitespace).reverse.dropWhile
    Char.isWhitespace).reverse)

/-- `astype(str)`: pandas renders NaN as the string "nan". -/
def valToString : Val → String
  | .na => "nan"
  | .num n => toString n
  | .str s => s

/-- One cell of `df[col].astype(str).str.lower().str.strip()` followed by
`.replace(placeholder_vals, np.nan)`. -/
def normCell (v : Val) : Val :=
  let s := trimStr (toLowerStr (valToString v))
  if s ∈ placeholder_vals then .na else .str s

/-- One cell of the whole-table `df.replace(['<na>', 'nan'], np.nan)`. -/
def globalReplaceCell (v : Val) : Val :=
  match v with
  | .str s => if s = "<na>" ∨ s = "nan" then .na else .str s
  | v => v

/-- Net per-cell effect of the text-normalization step on an object column. -/
def textCell (v : Val) : Val := globalReplaceCell (normCell v)

def normColumn (c : Column) : Column :=
  if c.isText then { c with cells := c.cells.map normCell } else c

def replaceColumn (c : Column) : Column :=
  { c with cells := c.cells.map globalReplaceCell }

def textNormalize (t : Table) : Table :=
  { t with cols := (t.cols.map normColumn).map replaceColumn }

/-! ### Step 4: binary/boolean field coercion (lines 21-25) -/

def binary_cols : List String :=
  ["claimed", "ishostkid", "INT_ANY", "INT_MISC", "INT_IDEO", "INT_LOG",
   "property", "doubtterr", "vicinity"]

/-- Parse a run of decimal digits (used to model numeric parsing). -/
def parseNatAux : List Char → Nat → Option Nat
  | [], acc => some acc
  | c :: cs, acc =>
    if c.isDigit then parseNatAux cs (10 * acc + (c.toNat - 48)) else none

/-- Integer parsing over the characters of a string; the embedding models
numeric values as integers. -/
def parseIntStr (s : String) : Option Int :=
  match s.data with
  | [] => none
  | '-' :: cs =>
    match cs with
    | [] => none
    | _ => (parseNatAux cs 0).map (fun n => -(n : Int))
  | cs => (parseNatAux cs 0).map (fun n => (n : Int))

/-- One cell of `pd.to_numeric(series, errors='coerce')`. -/
def toNumericCell (v : Val) : Val :=
  match v with
  | .na => .na
  | .num n => .num n
  | .str s =>
    match parseIntStr s with
    | some n => .num n
    | none => .na

def coerceColumn (c : Column) : Column :=
  { c with isText := false, cells := c.cells.map toNumericCell }

/-- The loop `for col in binary_cols: df[col] = pd.to_numeric(df[col], ...)`;
reading `df[col]` on an absent column raises `KeyError`. -/
def coerceBinaryAux : List String → Table → Except String Table
  | [], t => .ok t
  | col :: cols, t =>
    if hasCol t col then coerceBinaryAux cols (setCol t col coerceColumn)
    else .error ("KeyError: " ++ col)

def coerceBinary (t : Table) : Except String Table := coerceBinaryAux binary_cols t

/-! ### Step 5: drop rows missing lat/lon (lines 27-30) -/

def keepRow (a b : Val) : Bool := !(isNa a || isNa b)

def maskFilter (mask : List Bool) (xs : List Val) : List Val :=
  ((mask.zip xs).filter (fun p => p.1)).map (fun p => p.2)

/-- `len(df[df['latitude'].isnull() | df['longitude'].isnull()])`. -/
def missingLatLonCount (t : Table) : Nat :=
  match getCol t "latitude", getCol t "longitude" with
  | some la, some lo =>
    (List.zipWith (fun a b => isNa a || isNa b) la.cells lo.cells).count true
  | _, _ => 0

/-- `df.dropna(subset=['latitude', 'longitude'])`. -/
def dropMissingLatLon (t : Table) : Except String Table :=
  match getCol t "latitude", getCol t "longitude" with
  | some la, some lo =>
    let mask := List.zipWith keepRow la.cells lo.cells
    .ok { nrows := mask.count true,
          cols := t.cols.map (fun c => { c with cells := maskFilter mask c.cells }) }
  | _, _ => .error "KeyError: latitude or longitude"

/-! ### Step 6: default-fill city/provstate (lines 32-34) -/

def fillCell (d : Val) (v : Val) : Val := if isNa v then d else v

def fillColumn (d : Val) (c : Column) : Column :=
  { c with cells := c.cells.map (fillCell d) }

/-- `df[n] = df[n].fillna(d)`; reading `df[n]` on an absent column raises. -/
def fillna (t : Table) (n : String) (d : Val) : Except String Table :=
  if hasCol t n then .ok (setCol t n (fillColumn d))
  else .error ("KeyError: " ++ n)

def fillDefaults (t : Table) : Except String Table :=
  match fillna t "city" (.str "unknown") with
  | .error e => .error e
  | .ok t1 => fillna t1 "provstate" (.str "unknown")

/-! ### Step 7: code-text alignment check (lines 36-54) -/

def alignment_pairs : List (String × String) :=
  [("country", "country_txt"), ("region", "region_txt"),
   ("attacktype1", "attacktype1_txt"), ("targtype1", "targtype1_txt"),
   ("targsubtype1", "targsubtype1_txt"), ("weaptype1", "weaptype1_txt"),
   ("weapsubtype1", "weapsubtype1_txt")]

/-- Deduplicate, keeping the first occurrence of each value. -/
def dedupFirstAux (seen : List Val) : List Val → List Val
  | [] => []
  | v :: vs => if v ∈ seen then dedupFirstAux seen vs
               else v :: dedupFirstAux (v :: seen) vs

def dedupFirst (vs : List Val) : List Val := dedupFirstAux [] vs

/-- `series.nunique()`: number of distinct non-missing values. -/
def nuniqueNonNa (vs : List Val) : Nat :=
  (dedupFirst (vs.filter (fun v => !isNa v))).length

/-- `df.groupby(code)[text].nunique()`: for each distinct non-missing code value,
the number of distinct non-missing label values among its rows. -/
def groupNunique (code text : List Val) : List (Val × Nat) :=
  (dedupFirst (code.filter (fun v => !isNa v))).map
    (fun k => (k, nuniqueNonNa (((code.zip text).filter (fun p => p.1 == k)).map
      (fun p => p.2))))

structure AlignReport where
  codeCol : String
  textCol : String
  mismatches : List (Val × Nat)
deriving DecidableEq

/-- `check_alignment(df, code_col, text_col)`: the printed mismatch entries. -/
def check_alignment (t : Table) (cc tc : String) : Option AlignReport :=
  match getCol t cc, getCol t tc with
  | some c1, some c2 =>
    let bad := (groupNunique c1.cells c2.cells).filter (fun p => 1 < p.2)
    if bad = [] then none else some ⟨cc, tc, bad⟩
  | _, _ => none

/-- The alignment loop (lines 52-54): the table is only read, never written;
the second component models the console diagnostics. -/
def alignmentStep (t : Table) : Table × List AlignReport :=
  (t, alignment_pairs.filterMap (fun p =>
    if hasCol t p.1 && hasCol t p.2 then check_alignment t p.1 p.2 else none))

def alignTable (t : Table) : Table := (alignmentStep t).1

/-! ### Step 8: numeric integrity check and quarantine export (lines 56-78) -/

def expected_numeric_cols : List String :=
  ["iyear", "imonth", "iday", "nkill", "nkillus", "nkillter",
   "nwound", "nwoundus", "nwoundte", "propvalue", "nperps",
   "nperpcap", "ransomamt", "ransomamtus", "ransompaid", "ransompaidus"]

def export_dir : String :=
  "C:\\Users\\james\\OneDrive\\Desktop\\Tableau_UW\\bad_numeric_rows"

/-- `os.path.join(export_dir, f"bad_\x7bcol\x7d.csv")`. -/
def exportPath (col : String) : String := export_dir ++ "\\bad_" ++ col ++ ".csv"

/-- `pd.to_numeric(x, errors='coerce').isna() & x.notna()`: present but unparseable. -/
def invalidCell (v : Val) : Bool := !isNa v && isNa (toNumericCell v)

/-- Row indices selected by `invalid_mask`. -/
def invalidIdx (c : Column) : List Nat :=
  (List.range c.cells.length).filter (fun i => invalidCell (c.cells.getD i Val.na))

/-- `df.iloc[i]` as a list of cell values, in column order. -/
def getRow (t : Table) (i : Nat) : List Val :=
  t.cols.map (fun c => c.cells.getD i Val.na)

/-- `bad_rows = df[invalid_mask]`: the full offending rows. -/
def badRows (t : Table) (c : Column) : List (List Val) :=
  (invalidIdx c).map (getRow t)

/-- One exported quarantine artifact: the side file (`rows`, written to `path`)
plus the console preview `bad_rows[[col]].drop_duplicates().head(10)`. -/
structure QExport where
  col : String
  path : String
  rows : List (List Val)
  preview : List Val
deriving DecidableEq

/-- One iteration of the `expected_numeric_cols` loop: guarded by
`if col in df.columns`, exports the offending rows when nonempty, then coerces
the column with `pd.to_numeric(..., errors='coerce')`. -/
def processNumericCol (t : Table) (col : String) : Table × Option QExport :=
  match getCol t col with
  | none => (t, none)
  | some c =>
    let bad := badRows t c
    let e := if bad = [] then none
             else some { col := col, path := exportPath col, rows := bad,
                         preview := (dedupFirst ((invalidIdx c).map
                           (fun i => c.cells.getD i Val.na))).take 10 }
    (setCol t col coerceColumn, e)

def quarantineAux : List String → Table × List QExport → Table × List QExport
  | [], acc => acc
  | col :: cols, acc =>
    let r := processNumericCol acc.1 col
    quarantineAux cols (r.1, acc.2 ++ r.2.toList)

def quarantineStep (t : Table) : Table × List QExport :=
  quarantineAux expected_numeric_cols (t, [])

def quarantineCoerce (t : Table) : Table := (quarantineStep t).1

/-! ### Step 9: rename key columns (lines 80-92) -/

def rename_map : List (String × String) :=
  [("iyear", "year"), ("imonth", "month"), ("iday", "day"),
   ("nkill", "num_killed"), ("nwound", "num_wounded"),
   ("nkillus", "num_us_killed"), ("nwoundus", "num_us_wounded"),
   ("nkillter", "num_terrorists_killed"), ("nwoundte", "num_terrorists_wounded")]

def renameTargets : List String := rename_map.map (fun p => p.2)

def renameName (s : String) : String :=
  match rename_map.find? (fun p => p.1 = s) with
  | some p => p.2
  | none => s

def renameCols (t : Table) : Table :=
  { t with cols := t.cols.map (fun c => { c with name := renameName c.name }) }

/-! ### Step 10: explicit column drop (lines 94-104) -/

def drop_list : List String :=
  ["summary", "motive", "addnotes", "propcomment", "weapdetail",
   "target1", "target2", "target3", "corp1", "corp2", "corp3",
   "claimmode_txt", "claimmode2", "claimmode3",
   "scite1", "scite2", "scite3", "approxdate", "resolution", "ransomnote",
   "gsubname", "gsubname2", "gsubname3", "related", "location",
   "vicinity", "specificity",
   "dbsource", "INT_LOG", "INT_IDEO", "INT_MISC", "INT_ANY",
   "attacktype2", "attacktype2_txt", "attacktype3", "attacktype3_txt"]

/-- `df.drop([...], axis=1, errors='ignore')`. -/
def dropExplicit (t : Table) : Table :=
  { t with cols := t.cols.filter (fun c => !(drop_list.contains c.name)) }

/-! ### Step 11: sparsity-threshold column drop (lines 106-109) -/

def countNa (vs : List Val) : Nat := vs.countP (fun v => isNa v)

/-- `df.isnull().mean() >= 0.8` for one column; on an empty column the pandas
mean is NaN and the comparison is false, so the column is kept. -/
def sparseCol (c : Column) : Bool :=
  decide (c.cells.length ≠ 0) && decide (4 * c.cells.length ≤ 5 * countNa c.cells)

def dropSparse (t : Table) : Table :=
  { t with cols := t.cols.filter (fun c => !sparseCol c) }

/-! ### The whole pipeline (the script top to bottom, load/export aside) -/

def preFilter (t : Table) : Except String Table := coerceBinary (textNormalize t)

/-- Steps 7-11: everything between the default-fill and the final export. -/
def postFill (t4 : Table) : Table :=
  dropSparse (dropExplicit (renameCols (quarantineCoerce (alignTable t4))))

def pipeline (t : Table) : Except String Table :=
  (preFilter t).bind fun t2 =>
    (dropMissingLatLon t2).bind fun t3 =>
      (fillDefaults t3).bind fun t4 => .ok (postFill t4)

def emptyTable : Table := { nrows := 0, cols := [] }

def getOk (e : Except String Table) : Table := e.toOption.getD emptyTable

/-- A cell that is numeric or the missing marker (no raw text). -/
def numOrNa : Val → Bool
  | .str _ => false
  | _ => true

/-! ### Concrete tables used as witnesses and counterexamples -/

def exFull : Table :=
  { nrows := 3,
    cols :=
      [⟨"latitude", false, [.num 1, .na, .num 3]⟩,
       ⟨"longitude", false, [.num 10, .num 20, .num 30]⟩,
       ⟨"city", true, [.str "Boston ", .na, .str "UNKNOWN"]⟩,
       ⟨"provstate", true, [.str "MA", .str "", .str "x"]⟩,
       ⟨"claimed", true, [.str "1", .str "abc", .na]⟩,
       ⟨"ishostkid", false, [.num 0, .num 1, .num 0]⟩,
       ⟨"INT_ANY", false, [.num 0, .num 0, .num 0]⟩,
       ⟨"INT_MISC", false, [.num 0, .num 0, .num 0]⟩,
       ⟨"INT_IDEO", false, [.num 0, .num 0, .num 0]⟩,
       ⟨"INT_LOG", false, [.num 0, .num 0, .num 0]⟩,
       ⟨"property", false, [.na, .na, .na]⟩,
       ⟨"doubtterr", false, [.num 0, .num 1, .num 0]⟩,
       ⟨"vicinity", false, [.num 0, .num 0, .num 1]⟩,
       ⟨"nkill", true, [.str "5", .str "bad", .str "7"]⟩,
       ⟨"summary", true, [.str "blah", .str "blah", .str "blah"]⟩,
       ⟨"odd", false, [.na, .num 2, .na]⟩] }

def preFull : Table := getOk (preFilter exFull)

def outFull : Table := getOk (pipeline exFull)

/-- A table with no `claimed` column (and none of the other binary columns). -/
def exNoBin : Table :=
  { nrows := 1,
    cols := [⟨"latitude", false, [.num 1]⟩, ⟨"longitude", false, [.num 2]⟩,
             ⟨"city", true, [.na]⟩, ⟨"provstate", true, [.na]⟩] }

/-- An `nkill` column holding the same unparseable value in two distinct rows. -/
def nkillBad : Column := ⟨"nkill", true, [.str "abc", .str "abc"]⟩

def ex4 : Table := { nrows := 2, cols := [⟨"eventid", false, [.num 1, .num 2]⟩, nkillBad] }

/-- A table whose text column holds the literal value "N/A". -/
def exSlash : Table := { nrows := 1, cols := [⟨"city", true, [.str "N/A"]⟩] }

/-- A table whose text column holds a missing value. -/
def exText : Table := { nrows := 1, cols := [⟨"notes", true, [.na]⟩] }

/-! ## Structural lemmas -/

theorem normColumn_name (c : Column) : (normColumn c).name = c.name := by
  unfold normColumn; split <;> rfl

theorem normColumn_len (c : Column) : (normColumn c).cells.length = c.cells.length := by
  unfold normColumn; split <;> simp

theorem replaceColumn_name (c : Column) : (replaceColumn c).name = c.name := rfl

theorem coerceColumn_name (c : Column) : (coerceColumn c).name = c.name := rfl

theorem fillColumn_name (d : Val) (c : Column) : (fillColumn d c).name = c.name := rfl

theorem colNames_setCol (t : Table) (n : String) (f : Column → Column)
    (hf : ∀ c, (f c).name = c.name) : colNames (setCol t n f) = colNames t := by
  unfold colNames setCol
  simp only [List.map_map]
  apply List.map_congr_left
  intro c _
  by_cases h : c.name = n <;> simp [h, hf]

theorem colNames_textNormalize (t : Table) : colNames (textNormalize t) = colNames t := by
  unfold colNames textNormalize
  simp only [List.map_map]
  apply List.map_congr_left
  intro c _
  simp [Function.comp, replaceColumn_name, normColumn_name]

theorem hasCol_true_iff (t : Table) (n : String) :
    hasCol t n = true ↔ n ∈ colNames t := by
  unfold hasCol getCol colNames
  rw [List.find?_isSome]
  constructor
  · rintro ⟨c, hc, hp⟩
    exact List.mem_map.mpr ⟨c, hc, of_decide_eq_true hp⟩
  · intro hn
    rcases List.mem_map.mp hn with ⟨c, hc, he⟩
    exact ⟨c, hc, decide_eq_true he⟩

theorem hasCol_congr {t s : Table} (h : colNames t = colNames s) (n : String) :
    hasCol t n = hasCol s n := by
  cases hs : hasCol s n
  · cases ht : hasCol t n
    · rfl
    · exact absurd (((hasCol_true_iff s n).mpr (h ▸ (hasCol_true_iff t n).mp ht)).symm.trans hs) (by simp)
  · exact (hasCol_true_iff t n).mpr (h ▸ (hasCol_true_iff s n).mp hs)

theorem lenOK_setCol (t : Table) (n : String) (f : Column → Column)
    (hf : ∀ c, (f c).cells.length = c.cells.length) (h : lenOK t) :
    lenOK (setCol t n f) := by
  intro c hc
  rcases List.mem_map.mp hc with ⟨c0, hc0, he⟩
  subst he
  have hr : (setCol t n f).nrows = t.nrows := rfl
  by_cases hn : c0.name = n <;> simp [hn, hf, h c0 hc0, hr]

theorem lenOK_textNormalize (t : Table) (h : lenOK t) : lenOK (textNormalize t) := by
  intro c hc
  rcases List.mem_map.mp hc with ⟨c1, hc1, he1⟩
  rcases List.mem_map.mp hc1 with ⟨c0, hc0, he0⟩
  subst he1; subst he0
  show (replaceColumn (normColumn c0)).cells.length = _
  have hr : (textNormalize t).nrows = t.nrows := rfl
  unfold replaceColumn
  simp [normColumn_len, h c0 hc0, hr]

theorem coerceBinaryAux_ok (cols : List String) :
    ∀ (t t' : Table), coerceBinaryAux cols t = .ok t' →
      colNames t' = colNames t ∧ t'.nrows = t.nrows ∧ (lenOK t → lenOK t') := by
  induction cols with
  | nil =>
    intro t t' h
    cases h
    exact ⟨rfl, rfl, fun h => h⟩
  | cons c cs ih =>
    intro t t' h
    unfold coerceBinaryAux at h
    split at h
    · obtain ⟨h1, h2, h3⟩ := ih _ _ h
      refine ⟨h1.trans (colNames_setCol t c coerceColumn coerceColumn_name), h2, fun hl => h3 ?_⟩
      exact lenOK_setCol t c coerceColumn (fun c0 => by simp [coerceColumn]) hl
    · cases h


/-! ## Lemmas about the geolocation filter -/

theorem count_true_not (xs : List Bool) :
    xs.count true + (xs.map not).count true = xs.length := by
  induction xs with
  | nil => rfl
  | cons x l ih =>
    cases x <;> simp [List.count_cons] <;> omega

theorem dropMask_eq_not_keepMask (la lo : List Val) :
    List.zipWith (fun a b => isNa a || isNa b) la lo
      = (List.zipWith keepRow la lo).map not := by
  induction la generalizing lo with
  | nil => simp
  | cons a as ih =>
    cases lo with
    | nil => simp
    | cons b bs =>
      simp only [List.zipWith_cons_cons, List.map_cons, keepRow, Bool.not_not]
      exact congrArg _ (ih bs)

theorem keep_drop_count (la lo : List Val) :
    (List.zipWith keepRow la lo).count true
      + (List.zipWith (fun a b => isNa a || isNa b) la lo).count true
      = (List.zipWith keepRow la lo).length := by
  rw [dropMask_eq_not_keepMask]
  exact count_true_not _

theorem mem_maskFilter {mask : List Bool} {xs : List Val} {v : Val}
    (h : v ∈ maskFilter mask xs) : ∃ p ∈ mask.zip xs, p.1 = true ∧ p.2 = v := by
  unfold maskFilter at h
  rcases List.mem_map.mp h with ⟨p, hp, he⟩
  rcases List.mem_filter.mp hp with ⟨hmem, hfst⟩
  exact ⟨p, hmem, hfst, he⟩

theorem zip_keep_left : ∀ (la lo : List Val) (p : Bool × Val),
    p ∈ (List.zipWith keepRow la lo).zip la → p.1 = true → isNa p.2 = false := by
  intro la
  induction la with
  | nil => intro lo p hp; simp at hp
  | cons a as ih =>
    intro lo p hp htrue
    cases lo with
    | nil => simp at hp
    | cons b bs =>
      rw [List.zipWith_cons_cons, List.zip_cons_cons, List.mem_cons] at hp
      rcases hp with rfl | hp
      · have hk : keepRow a b = true := htrue
        show isNa a = false
        unfold keepRow at hk
        cases hna : isNa a
        · rfl
        · rw [hna] at hk; simp at hk
      · exact ih bs p hp htrue

theorem zip_keep_right : ∀ (la lo : List Val) (p : Bool × Val),
    p ∈ (List.zipWith keepRow la lo).zip lo → p.1 = true → isNa p.2 = false := by
  intro la
  induction la with
  | nil => intro lo p hp; simp at hp
  | cons a as ih =>
    intro lo p hp htrue
    cases lo with
    | nil => simp at hp
    | cons b bs =>
      rw [List.zipWith_cons_cons, List.zip_cons_cons, List.mem_cons] at hp
      rcases hp with rfl | hp
      · have hk : keepRow a b = true := htrue
        show isNa b = false
        unfold keepRow at hk
        cases hnb : isNa b
        · rfl
        · rw [hnb] at hk; simp at hk
      · exact ih bs p hp htrue

theorem maskFilter_keep_left (la lo : List Val) :
    ∀ v ∈ maskFilter (List.zipWith keepRow la lo) la, isNa v = false := by
  intro v hv
  rcases mem_maskFilter hv with ⟨p, hp, h1, h2⟩
  exact h2 ▸ zip_keep_left la lo p hp h1

theorem maskFilter_keep_right (la lo : List Val) :
    ∀ v ∈ maskFilter (List.zipWith keepRow la lo) lo, isNa v = false := by
  intro v hv
  rcases mem_maskFilter hv with ⟨p, hp, h1, h2⟩
  exact h2 ▸ zip_keep_right la lo p hp h1

theorem find?_name_of_nodup :
    ∀ (l : List Column), (l.map (fun c => c.name)).Nodup →
      ∀ c ∈ l, l.find? (fun d => d.name = c.name) = some c := by
  intro l
  induction l with
  | nil => intro _ c hc; cases hc
  | cons d ds ih =>
    intro hnd c hc
    rw [List.map_cons, List.nodup_cons] at hnd
    by_cases hdc : d.name = c.name
    · rcases List.mem_cons.mp hc with hceq | hmem
      · subst hceq; exact List.find?_cons_of_pos _ (by simp)
      · exact absurd (hdc ▸ List.mem_map.mpr ⟨c, hmem, rfl⟩) hnd.1
    · rcases List.mem_cons.mp hc with hceq | hmem
      · subst hceq; exact absurd rfl hdc
      · rw [List.find?_cons_of_neg _ (by simpa using hdc)]
        exact ih hnd.2 c hmem

/-- With pairwise-distinct column names, a member column is what `df[name]` finds. -/
theorem getCol_of_nodup (t : Table) (hnd : (colNames t).Nodup) (c : Column)
    (hc : c ∈ t.cols) : getCol t c.name = some c :=
  find?_name_of_nodup t.cols hnd c hc

/-! ## Lemmas about default-fill -/

theorem fillna_ok {t t' : Table} {n : String} {d : Val} (h : fillna t n d = .ok t') :
    t' = setCol t n (fillColumn d) := by
  unfold fillna at h
  split at h
  · exact (Except.ok.inj h).symm
  · cases h

theorem isNa_fillCell (d v : Val) (hd : isNa d = false) :
    isNa (fillCell d v) = false := by
  unfold fillCell
  cases hv : isNa v
  · simp [hv]
  · simp [hv, hd]

theorem setCol_frame (t : Table) (n : String) (f : Column → Column) :
    ∀ c' ∈ (setCol t n f).cols,
      ∃ c ∈ t.cols, (c.name = n ∧ c' = f c) ∨ (¬ c.name = n ∧ c' = c) := by
  intro c' hc'
  rcases List.mem_map.mp hc' with ⟨c, hc, he⟩
  by_cases h : c.name = n
  · exact ⟨c, hc, Or.inl ⟨h, by rw [← he, if_pos h]⟩⟩
  · exact ⟨c, hc, Or.inr ⟨h, by rw [← he, if_neg h]⟩⟩

theorem fillColumn_noNa (u : String) (c : Column) :
    ∀ v ∈ (fillColumn (Val.str u) c).cells, isNa v = false := by
  intro v hv
  rcases List.mem_map.mp hv with ⟨w, _, hw⟩
  exact hw ▸ isNa_fillCell _ w rfl

theorem fillDefaults_frame {t t' : Table} (h : fillDefaults t = .ok t') :
    colNames t' = colNames t ∧ t'.nrows = t.nrows ∧
      ∀ c' ∈ t'.cols, ∃ c ∈ t.cols, c'.name = c.name ∧
        (c'.cells = c.cells ∨ ∀ v ∈ c'.cells, isNa v = false) := by
  unfold fillDefaults at h
  split at h
  · cases h
  · next t1 h1 =>
    have e1 : t1 = setCol t "city" (fillColumn (.str "unknown")) := fillna_ok h1
    have e2 : t' = setCol t1 "provstate" (fillColumn (.str "unknown")) := fillna_ok h
    constructor
    · rw [e2, e1, colNames_setCol _ _ _ (fillColumn_name _),
          colNames_setCol _ _ _ (fillColumn_name _)]
    constructor
    · rw [e2, e1]; rfl
    · intro c' hc'
      rw [e2] at hc'
      rcases setCol_frame _ _ _ c' hc' with ⟨c1, hc1, hd1⟩
      rw [e1] at hc1
      rcases setCol_frame _ _ _ c1 hc1 with ⟨c0, hc0, hd0⟩
      refine ⟨c0, hc0, ?_⟩
      rcases hd1 with ⟨_, rfl⟩ | ⟨_, rfl⟩
      · rcases hd0 with ⟨_, rfl⟩ | ⟨_, rfl⟩
        · exact ⟨(fillColumn_name _ _).trans (fillColumn_name _ _),
                 Or.inr (fillColumn_noNa _ _)⟩
        · exact ⟨fillColumn_name _ _, Or.inr (fillColumn_noNa _ _)⟩
      · rcases hd0 with ⟨_, rfl⟩ | ⟨_, rfl⟩
        · exact ⟨fillColumn_name _ _, Or.inr (fillColumn_noNa _ _)⟩
        · exact ⟨rfl, Or.inl rfl⟩

/-! ## Lemmas about the quarantine step -/

theorem numOrNa_toNumericCell (v : Val) : numOrNa (toNumericCell v) = true := by
  cases v with
  | na => rfl
  | num n => rfl
  | str s =>
    cases h : parseIntStr s with
    | none => simp [toNumericCell, h, numOrNa]
    | some n => simp [toNumericCell, h, numOrNa]

theorem coerceColumn_all (c : Column) :
    (coerceColumn c).cells.all numOrNa = true := by
  refine List.all_eq_true.mpr ?_
  intro x hx
  rcases List.mem_map.mp hx with ⟨v, _, hv⟩
  exact hv ▸ numOrNa_toNumericCell v

theorem getCol_none_no_mem {t : Table} {n : String} (h : getCol t n = none) :
    ∀ c ∈ t.cols, c.name ≠ n := by
  intro c hc he
  have := List.find?_eq_none.mp h c hc
  simp [he] at this

theorem processNumericCol_fst (t : Table) (col : String) :
    (processNumericCol t col).1
      = match getCol t col with
        | none => t
        | some _ => setCol t col coerceColumn := by
  unfold processNumericCol
  cases getCol t col <;> rfl

theorem quarantineAux_fst_names :
    ∀ (cols : List String) (t : Table) (es : List QExport),
      colNames (quarantineAux cols (t, es)).1 = colNames t := by
  intro cols
  induction cols with
  | nil => intro t es; rfl
  | cons col cols ih =>
    intro t es
    show colNames (quarantineAux cols ((processNumericCol t col).1, _)).1 = _
    rw [ih]
    rw [processNumericCol_fst]
    cases getCol t col with
    | none => rfl
    | some c => exact colNames_setCol t col coerceColumn coerceColumn_name

theorem quarantineAux_fst_nrows :
    ∀ (cols : List String) (t : Table) (es : List QExport),
      (quarantineAux cols (t, es)).1.nrows = t.nrows := by
  intro cols
  induction cols with
  | nil => intro t es; rfl
  | cons col cols ih =>
    intro t es
    show (quarantineAux cols ((processNumericCol t col).1, _)).1.nrows = _
    rw [ih, processNumericCol_fst]
    cases getCol t col <;> rfl

theorem quarantineAux_frame :
    ∀ (cols : List String) (t : Table) (es : List QExport),
      ∀ c' ∈ (quarantineAux cols (t, es)).1.cols,
        ∃ c ∈ t.cols, c'.name = c.name ∧
          (c'.cells = c.cells ∨ (c'.name ∈ cols ∧ c'.cells.all numOrNa = true)) := by
  intro cols
  induction cols with
  | nil =>
    intro t es c' hc'
    exact ⟨c', hc', rfl, Or.inl rfl⟩
  | cons col cols ih =>
    intro t es c' hc'
    have hc'' : c' ∈ (quarantineAux cols ((processNumericCol t col).1,
        es ++ (processNumericCol t col).2.toList)).1.cols := hc'
    rcases ih _ _ c' hc'' with ⟨c1, hc1, hn1, hd1⟩
    rw [processNumericCol_fst] at hc1
    have step : ∃ c ∈ t.cols, c1.name = c.name ∧
        (c1.cells = c.cells ∨ (c1.name = col ∧ c1.cells.all numOrNa = true)) := by
      cases hg : getCol t col with
      | none =>
        rw [hg] at hc1
        exact ⟨c1, hc1, rfl, Or.inl rfl⟩
      | some c0 =>
        rw [hg] at hc1
        rcases setCol_frame _ _ _ c1 hc1 with ⟨c, hc, hd⟩
        rcases hd with ⟨hcc, he⟩ | ⟨_, he⟩
        · subst he
          exact ⟨c, hc, coerceColumn_name c,
            Or.inr ⟨(coerceColumn_name c).trans hcc, coerceColumn_all c⟩⟩
        · subst he
          exact ⟨c1, hc, rfl, Or.inl rfl⟩
    rcases step with ⟨c, hc, hn, hd⟩
    refine ⟨c, hc, hn1.trans hn, ?_⟩
    rcases hd1 with he1 | ⟨hm1, ha1⟩
    · rcases hd with he | ⟨hm, ha⟩
      · exact Or.inl (he1.trans he)
      · exact Or.inr ⟨List.mem_cons.mpr (Or.inl (hn1.trans hm)),
          by rw [he1]; exact ha⟩
    · exact Or.inr ⟨List.mem_cons.mpr (Or.inr hm1), ha1⟩

theorem quarantineAux_covered :
    ∀ (cols : List String) (t : Table) (es : List QExport),
      ∀ c' ∈ (quarantineAux cols (t, es)).1.cols,
        c'.name ∈ cols → c'.cells.all numOrNa = true := by
  intro cols
  induction cols with
  | nil =>
    intro t es c' _ hm
    cases hm
  | cons col cols ih =>
    intro t es c' hc' hm
    have hc'' : c' ∈ (quarantineAux cols ((processNumericCol t col).1,
        es ++ (processNumericCol t col).2.toList)).1.cols := hc'
    by_cases hmem : c'.name ∈ cols
    · exact ih _ _ c' hc'' hmem
    · have hcol : c'.name = col := by
        rcases List.mem_cons.mp hm with h | h
        · exact h
        · exact absurd h hmem
      rcases quarantineAux_frame cols _ _ c' hc'' with ⟨c1, hc1, hn1, hd1⟩
      rcases hd1 with he1 | ⟨hm1, ha1⟩
      · rw [processNumericCol_fst] at hc1
        cases hg : getCol t col with
        | none =>
          rw [hg] at hc1
          exact absurd (hn1 ▸ hcol) (getCol_none_no_mem hg c1 hc1)
        | some c0 =>
          rw [hg] at hc1
          rcases setCol_frame _ _ _ c1 hc1 with ⟨c, hc, hd⟩
          rcases hd with ⟨_, he⟩ | ⟨hne, he⟩
          · subst he
            rw [he1]
            exact coerceColumn_all c
          · subst he
            exact absurd (hn1 ▸ hcol) hne
      · exact ha1

theorem quarantineCoerce_covered (t : Table) :
    ∀ c' ∈ (quarantineCoerce t).cols,
      c'.name ∈ expected_numeric_cols → c'.cells.all numOrNa = true := by
  unfold quarantineCoerce quarantineStep
  exact quarantineAux_covered expected_numeric_cols t []

/-! ## Lemmas about the rename step -/

theorem renameName_cases (x : String) :
    renameName x = x ∨ ∃ p ∈ rename_map, p.1 = x ∧ renameName x = p.2 := by
  unfold renameName
  cases hf : rename_map.find? (fun p => p.1 = x) with
  | none => exact Or.inl rfl
  | some p =>
    have h0 := List.find?_some hf
    simp only [decide_eq_true_eq] at h0
    exact Or.inr ⟨p, List.mem_of_find?_eq_some hf, h0, rfl⟩

set_option maxHeartbeats 1000000 in
theorem renameTargets_nodup : renameTargets.Nodup := by decide

/-- A name outside the rename targets is its own unique preimage. -/
theorem renameName_fixed (x z : String) (hz : ¬ z ∈ renameTargets)
    (h : renameName x = z) : x = z := by
  rcases renameName_cases x with he | ⟨p, hp, _, hv⟩
  · exact he ▸ h
  · exact absurd (h ▸ hv ▸ List.mem_map.mpr ⟨p, hp, rfl⟩) hz

/-- Off the rename targets, renaming is injective. -/
theorem renameName_inj (x y : String) (hx : ¬ x ∈ renameTargets)
    (hy : ¬ y ∈ renameTargets) (h : renameName x = renameName y) : x = y := by
  rcases renameName_cases x with hex | ⟨p, hp, hpx, hpv⟩
  · rcases renameName_cases y with hey | ⟨q, hq, hqy, hqv⟩
    · rw [hex, hey] at h; exact h
    · rw [hex] at h
      exact absurd (h ▸ hqv ▸ List.mem_map.mpr ⟨q, hq, rfl⟩) hx
  · rcases renameName_cases y with hey | ⟨q, hq, hqy, hqv⟩
    · rw [hey] at h
      exact absurd (h ▸ hpv ▸ List.mem_map.mpr ⟨p, hp, rfl⟩) hy
    · have hnd : (rename_map.map (fun r => r.2)).Nodup := renameTargets_nodup
      have hval : p.2 = q.2 := by rw [← hpv, ← hqv]; exact h
      have hpq : p = q :=
        @List.inj_on_of_nodup_map (String × String) String (fun r => r.2)
          rename_map hnd p hp q hq hval
      rw [← hpx, ← hqy, hpq]

theorem renameCols_mem {t : Table} {c' : Column}
    (h : c' ∈ (renameCols t).cols) :
    ∃ c ∈ t.cols, c'.name = renameName c.name ∧ c'.cells = c.cells := by
  rcases List.mem_map.mp h with ⟨c, hc, he⟩
  exact ⟨c, hc, by rw [← he], by rw [← he]⟩

theorem renameCols_mem_of (t : Table) (c : Column) (hc : c ∈ t.cols) :
    { c with name := renameName c.name } ∈ (renameCols t).cols :=
  List.mem_map.mpr ⟨c, hc, rfl⟩

/-! ## Lemmas about the two column-drop steps -/

theorem dropExplicit_mem {t : Table} {c : Column} (h : c ∈ (dropExplicit t).cols) :
    c ∈ t.cols ∧ drop_list.contains c.name = false := by
  rcases List.mem_filter.mp h with ⟨h1, h2⟩
  exact ⟨h1, by simpa using h2⟩

theorem dropExplicit_mem_of {t : Table} {c : Column} (h1 : c ∈ t.cols)
    (h2 : drop_list.contains c.name = false) : c ∈ (dropExplicit t).cols :=
  List.mem_filter.mpr ⟨h1, by rw [h2]; rfl⟩

theorem dropSparse_mem {t : Table} {c : Column} (h : c ∈ (dropSparse t).cols) :
    c ∈ t.cols ∧ sparseCol c = false := by
  rcases List.mem_filter.mp h with ⟨h1, h2⟩
  exact ⟨h1, by simpa using h2⟩

theorem dropSparse_mem_of {t : Table} {c : Column} (h1 : c ∈ t.cols)
    (h2 : sparseCol c = false) : c ∈ (dropSparse t).cols :=
  List.mem_filter.mpr ⟨h1, by rw [h2]; rfl⟩

theorem sparseCol_false_of_noNa (c : Column)
    (h : ∀ v ∈ c.cells, isNa v = false) : sparseCol c = false := by
  have hz : countNa c.cells = 0 := by
    refine List.countP_eq_zero.mpr ?_
    intro v hv
    simp [h v hv]
  unfold sparseCol
  rw [hz]
  cases hl : c.cells.length with
  | zero => simp
  | succ k => simp

/-! ## Lemmas about binary coercion and pipeline decomposition -/

theorem getCol_none_of_hasCol_false {t : Table} {n : String}
    (h : hasCol t n = false) : getCol t n = none := by
  unfold hasCol at h
  cases hg : getCol t n
  · rfl
  · rw [hg] at h; cases h

theorem coerceBinaryAux_error :
    ∀ (cols : List String) (t : Table), (∃ col ∈ cols, hasCol t col = false) →
      ∃ e, coerceBinaryAux cols t = .error e := by
  intro cols
  induction cols with
  | nil =>
    rintro t ⟨col, hm, _⟩
    cases hm
  | cons c cs ih =>
    rintro t ⟨col, hm, hcol⟩
    unfold coerceBinaryAux
    by_cases hc : hasCol t c
    · rw [if_pos hc]
      apply ih
      rcases List.mem_cons.mp hm with he | hmem
      · subst he; rw [hc] at hcol; cases hcol
      · refine ⟨col, hmem, ?_⟩
        rw [hasCol_congr (colNames_setCol t c coerceColumn coerceColumn_name) col]
        exact hcol
    · rw [if_neg hc]
      exact ⟨_, rfl⟩

theorem coerceBinaryAux_ok_exists :
    ∀ (cols : List String) (t : Table), (∀ col ∈ cols, hasCol t col = true) →
      ∃ u, coerceBinaryAux cols t = .ok u := by
  intro cols
  induction cols with
  | nil => intro t _; exact ⟨t, rfl⟩
  | cons c cs ih =>
    intro t h
    unfold coerceBinaryAux
    rw [if_pos (h c (List.mem_cons_self c cs))]
    apply ih
    intro col hm
    rw [hasCol_congr (colNames_setCol t c coerceColumn coerceColumn_name) col]
    exact h col (List.mem_cons_of_mem c hm)

theorem quarantineAux_skip :
    ∀ (cols : List String) (t : Table) (es : List QExport),
      (∀ col ∈ cols, hasCol t col = false) →
      quarantineAux cols (t, es) = (t, es) := by
  intro cols
  induction cols with
  | nil => intro t es _; rfl
  | cons c cs ih =>
    intro t es h
    have hg : getCol t c = none :=
      getCol_none_of_hasCol_false (h c (List.mem_cons_self c cs))
    show quarantineAux cs ((processNumericCol t c).1,
      es ++ (processNumericCol t c).2.toList) = (t, es)
    have hp : processNumericCol t c = (t, none) := by
      unfold processNumericCol
      rw [hg]
    rw [hp]
    show quarantineAux cs (t, es ++ []) = (t, es)
    rw [List.append_nil]
    exact ih t es (fun col hm => h col (List.mem_cons_of_mem c hm))

theorem bind_error_law (e : String) (f : Table → Except String Table) :
    (Except.error e : Except String Table).bind f = .error e := rfl

theorem bind_ok_law (a : Table) (f : Table → Except String Table) :
    (Except.ok a : Except String Table).bind f = f a := rfl

theorem pipeline_ok {t out : Table} (h : pipeline t = .ok out) :
    ∃ t2 t3 t4, preFilter t = .ok t2 ∧ dropMissingLatLon t2 = .ok t3 ∧
      fillDefaults t3 = .ok t4 ∧ out = postFill t4 := by
  unfold pipeline at h
  rcases hp : preFilter t with e | t2 <;> rw [hp] at h
  · rw [bind_error_law] at h; cases h
  · rw [bind_ok_law] at h
    rcases hd : dropMissingLatLon t2 with e | t3 <;> rw [hd] at h
    · rw [bind_error_law] at h; cases h
    · rw [bind_ok_law] at h
      rcases hf : fillDefaults t3 with e | t4 <;> rw [hf] at h
      · rw [bind_error_law] at h; cases h
      · rw [bind_ok_law] at h
        exact ⟨t2, t3, t4, rfl, hd, hf, (Except.ok.inj h).symm⟩

/-! ## Lemmas about text normalization -/

theorem textNormalize_cols (t : Table) :
    (textNormalize t).cols = t.cols.map (fun c =>
      if c.isText then { c with cells := c.cells.map textCell }
      else replaceColumn c) := by
  unfold textNormalize
  show (t.cols.map normColumn).map replaceColumn = _
  rw [List.map_map]
  apply List.map_congr_left
  intro c _
  by_cases h : c.isText
  · show replaceColumn (normColumn c) = _
    rw [if_pos h]
    unfold normColumn
    rw [if_pos h]
    unfold replaceColumn
    show ({ c with cells := (c.cells.map normCell).map globalReplaceCell } : Column) = _
    rw [List.map_map]
    rfl
  · show replaceColumn (normColumn c) = _
    rw [if_neg h]
    unfold normColumn
    rw [if_neg h]

theorem textCell_na : textCell Val.na = Val.na := by decide

theorem mem_placeholder_of_nan : ("nan" : String) ∈ placeholder_vals := by decide

theorem textCell_eq (v : Val) :
    textCell v = (if trimStr (toLowerStr (valToString v)) ∈ placeholder_vals
                     ∨ trimStr (toLowerStr (valToString v)) = "<na>"
                  then Val.na
                  else Val.str (trimStr (toLowerStr (valToString v)))) := by
  unfold textCell normCell
  by_cases h1 : trimStr (toLowerStr (valToString v)) ∈ placeholder_vals
  · rw [if_pos h1, if_pos (Or.inl h1)]
    rfl
  · rw [if_neg h1]
    show (if (trimStr (toLowerStr (valToString v)) = "<na>"
              ∨ trimStr (toLowerStr (valToString v)) = "nan")
          then Val.na else Val.str (trimStr (toLowerStr (valToString v)))) = _
    have h3 : ¬ trimStr (toLowerStr (valToString v)) = "nan" := by
      intro he
      exact h1 (he ▸ mem_placeholder_of_nan)
    by_cases h2 : trimStr (toLowerStr (valToString v)) = "<na>"
    · rw [if_pos (Or.inl h2), if_pos (Or.inr h2)]
    · rw [if_neg (fun hor => hor.elim h2 h3),
          if_neg (fun hor => hor.elim h1 h2)]

/-! ## Claims -/

/-- C8: the code/text consistency check is purely diagnostic.  The table after
the alignment step equals the table before it — same value in every column and
every row, same column names, same row count — and the step is a total
function, so it never halts the pipeline. -/
theorem alignment_check_pure :
    ∀ (t : Table) (n : String) (i : Nat),
      alignTable t = t ∧ getCell (alignTable t) n i = getCell t n i ∧
        colNames (alignTable t) = colNames t ∧
        (alignmentStep t).1.nrows = t.nrows :=
  fun _ _ _ => ⟨rfl, rfl, rfl, rfl⟩

/-- C9: text normalization preserves missingness.  Stringification renders the
missing marker as the string "nan", and that string (like "&lt;na&gt;") is mapped
back to the missing marker, so a missing cell of a text column is still
missing after the step. -/
theorem textNormalize_preserves_missing (t : Table) (c : Column) (i : Nat)
    (hc : c ∈ t.cols) (ht : c.isText = true)
    (hna : c.cells.get? i = some Val.na) :
    valToString Val.na = "nan" ∧ textCell Val.na = Val.na ∧
      ∃ c' ∈ (textNormalize t).cols, c'.name = c.name ∧
        c'.cells.get? i = some Val.na := by
  refine ⟨rfl, textCell_na, ?_⟩
  rw [textNormalize_cols]
  refine ⟨{ c with cells := c.cells.map textCell },
    List.mem_map.mpr ⟨c, hc, by rw [if_pos ht]⟩, rfl, ?_⟩
  show (c.cells.map textCell).get? i = some Val.na
  rw [List.get?_map, hna]
  show some (textCell Val.na) = some Val.na
  rw [textCell_na]

theorem textNormalize_preserves_missing_witness :
    (⟨"notes", true, [Val.na]⟩ : Column) ∈ exText.cols ∧
      (valToString Val.na = "nan" ∧ textCell Val.na = Val.na ∧
        ∃ c' ∈ (textNormalize exText).cols, c'.name = "notes" ∧
          c'.cells.get? 0 = some Val.na) :=
  ⟨by decide,
   textNormalize_preserves_missing exText ⟨"notes", true, [Val.na]⟩ 0
     (by decide) rfl rfl⟩

/-- C7 (counterexample): the claim says every placeholder named by the spec,
including "n/a", is mapped to the missing marker; but on a text column holding
"N/A" the normalization step leaves the literal text "n/a" in place, which is
not the missing marker. -/
theorem placeholder_na_counterexample :
    getCell (textNormalize exSlash) "city" 0 = some (Val.str "n/a") ∧
      Val.str "n/a" ≠ Val.na := by
  constructor
  · decide
  · decide

/-- C7 (amended): for every text-typed column the step lowercases and trims
each value and maps it to the missing marker exactly when the result lies in
the placeholder set {"unknown", "not applicable", "unk", "none", "nan", ""}
or is the literal "&lt;na&gt;"; the spec's "n/a" is not in the placeholder set and
is left in place as text. -/
theorem text_placeholder_normalization :
    (∀ t : Table, (textNormalize t).cols = t.cols.map (fun c =>
        if c.isText then { c with cells := c.cells.map textCell }
        else replaceColumn c)) ∧
    (∀ v : Val, textCell v
        = (if trimStr (toLowerStr (valToString v)) ∈ placeholder_vals
              ∨ trimStr (toLowerStr (valToString v)) = "<na>"
           then Val.na
           else Val.str (trimStr (toLowerStr (valToString v))))) ∧
    placeholder_vals.contains "n/a" = false ∧
    placeholder_vals = ["unknown", "not applicable", "unk", "none", "nan", ""] :=
  ⟨textNormalize_cols, textCell_eq, by decide, rfl⟩

/-- C10: the five binary/ternary columns INT_ANY, INT_MISC, INT_IDEO, INT_LOG
and vicinity all occur in the fixed explicit drop list, so whenever the
pipeline succeeds no column with any of those names remains in the exported
table — whatever their contents were. -/
theorem binary_cols_dropped (t out : Table) (h : pipeline t = .ok out) :
    ∀ c ∈ out.cols,
      c.name ≠ "INT_ANY" ∧ c.name ≠ "INT_MISC" ∧ c.name ≠ "INT_IDEO" ∧
        c.name ≠ "INT_LOG" ∧ c.name ≠ "vicinity" := by
  rcases pipeline_ok h with ⟨t2, t3, t4, _, _, _, hout⟩
  subst hout
  intro c hc
  unfold postFill at hc
  have h8 := (dropSparse_mem hc).1
  have h7 := (dropExplicit_mem h8).2
  refine ⟨?_, ?_, ?_, ?_, ?_⟩ <;> intro he <;> rw [he] at h7 <;>
    exact absurd h7 (by decide)

theorem binary_cols_dropped_witness :
    (pipeline exFull = Except.ok outFull) ∧
      ∀ c ∈ outFull.cols,
        c.name ≠ "INT_ANY" ∧ c.name ≠ "INT_MISC" ∧ c.name ≠ "INT_IDEO" ∧
          c.name ≠ "INT_LOG" ∧ c.name ≠ "vicinity" :=
  ⟨rfl, binary_cols_dropped exFull outFull rfl⟩

/-- C6: whenever the pipeline succeeds, no exported column is sparse: for every
column of the output, it is not the case that the column is nonempty with a
missing fraction of at least 80% — the sparsity filter is computed on the
table as it stands at that step and export follows immediately. -/
theorem no_sparse_column_exported (t out : Table) (h : pipeline t = .ok out) :
    ∀ c ∈ out.cols, sparseCol c = false := by
  rcases pipeline_ok h with ⟨t2, t3, t4, _, _, _, hout⟩
  subst hout
  intro c hc
  unfold postFill at hc
  exact (dropSparse_mem hc).2

theorem no_sparse_column_exported_witness :
    (pipeline exFull = Except.ok outFull) ∧
      ∀ c ∈ outFull.cols, sparseCol c = false :=
  ⟨rfl, no_sparse_column_exported exFull outFull rfl⟩

/-- C3 (counterexample): on a table lacking the `claimed` column, the binary
coercion step does not skip the column; it raises a KeyError and the whole
pipeline aborts. -/
theorem missing_column_aborts :
    pipeline exNoBin = .error "KeyError: claimed" := rfl

/-- C3 (amended): steps that guard on column presence — the alignment check,
the numeric quarantine, and the explicit drop — skip absent columns, but the
binary/ternary coercion and the default-fill steps do not: a missing named
column raises a KeyError. -/
theorem column_absence_behavior (t : Table) :
    ((∃ col ∈ binary_cols, hasCol t col = false) →
        ∃ e, coerceBinary t = .error e) ∧
    ((∀ col ∈ binary_cols, hasCol t col = true) →
        ∃ u, coerceBinary t = .ok u) ∧
    (hasCol t "city" = false → ∃ e, fillDefaults t = .error e) ∧
    ((∀ col ∈ expected_numeric_cols, hasCol t col = false) →
        quarantineCoerce t = t) ∧
    (∀ cc tc : String, hasCol t cc = false → check_alignment t cc tc = none) := by
  refine ⟨?_, ?_, ?_, ?_, ?_⟩
  · intro h
    exact coerceBinaryAux_error binary_cols t h
  · intro h
    exact coerceBinaryAux_ok_exists binary_cols t h
  · intro h
    refine ⟨"KeyError: city", ?_⟩
    unfold fillDefaults fillna
    rw [h]
    simp
  · intro h
    unfold quarantineCoerce quarantineStep
    rw [quarantineAux_skip expected_numeric_cols t [] h]
  · intro cc tc h
    unfold check_alignment
    rw [getCol_none_of_hasCol_false h]

theorem column_absence_witness :
    (∃ e, coerceBinary exNoBin = Except.error e) ∧
      quarantineCoerce exNoBin = exNoBin :=
  ⟨(column_absence_behavior exNoBin).1 ⟨"claimed", by decide, by decide⟩,
   (column_absence_behavior exNoBin).2.2.2.1 (by decide)⟩

/-- C4 (counterexample): the rows written to the quarantine side file are NOT
deduplicated by the offending value: with the same unparseable value "abc" in
two rows of `nkill` (one distinct offending value, as the preview of length 1
shows), both full rows are exported. -/
theorem quarantine_dedup_counterexample :
    (processNumericCol ex4 "nkill").2.map (fun e => e.rows)
        = some [[Val.num 1, Val.str "abc"], [Val.num 2, Val.str "abc"]] ∧
    (processNumericCol ex4 "nkill").2.map (fun e => e.preview)
        = some [Val.str "abc"] ∧
    ¬ (processNumericCol ex4 "nkill").2.map (fun e => e.rows.length) = some 1 := by
  refine ⟨rfl, rfl, ?_⟩
  intro hcontra
  have : (2 : Nat) = 1 := Option.some.inj ((rfl :
    (processNumericCol ex4 "nkill").2.map (fun e => e.rows.length)
      = some 2).symm.trans hcontra)
  cases this

/-- C4 (amended): for a present numeric-check column with at least one value
that is present but unparseable, the step exports ALL offending full rows (no
deduplication) to the deterministic per-column path, the console preview (not
the file) is the first ten distinct offending values, and afterwards the
column is coerced so that every cell is numeric or missing; no row is removed
from the main table. -/
theorem quarantine_export_behavior (t : Table) (col : String) (c : Column)
    (hg : getCol t col = some c) (hne : ¬ badRows t c = []) :
    (processNumericCol t col).2
        = some { col := col, path := exportPath col, rows := badRows t c,
                 preview := (dedupFirst ((invalidIdx c).map
                   (fun i => c.cells.getD i Val.na))).take 10 } ∧
    (∀ i : Nat, i ∈ invalidIdx c ↔
        (i < c.cells.length ∧ invalidCell (c.cells.getD i Val.na) = true)) ∧
    (∀ v : Val, invalidCell v = true ↔
        (isNa v = false ∧ toNumericCell v = Val.na)) ∧
    (∀ c' ∈ (processNumericCol t col).1.cols, c'.name = col →
        c'.cells.all numOrNa = true) ∧
    (processNumericCol t col).1.nrows = t.nrows := by
  refine ⟨?_, ?_, ?_, ?_, ?_⟩
  · unfold processNumericCol
    rw [hg]
    show (if badRows t c = [] then none else some _) = some _
    rw [if_neg hne]
  · intro i
    simp [invalidIdx, List.mem_filter, List.mem_range]
  · intro v
    cases v with
    | na => simp [invalidCell, isNa]
    | num n => simp [invalidCell, isNa, toNumericCell]
    | str s =>
      cases h : parseIntStr s with
      | some n => simp [invalidCell, isNa, toNumericCell, h]
      | none => simp [invalidCell, isNa, toNumericCell, h]
  · intro c' hc' hname
    rw [processNumericCol_fst, hg] at hc'
    rcases setCol_frame _ _ _ c' hc' with ⟨c0, _, hd⟩
    rcases hd with ⟨_, he⟩ | ⟨hne0, he⟩
    · subst he; exact coerceColumn_all c0
    · subst he; exact absurd hname hne0
  · rw [processNumericCol_fst, hg]
    rfl

theorem quarantine_export_witness :
    (getCol ex4 "nkill" = some nkillBad) ∧
    (processNumericCol ex4 "nkill").2
        = some { col := "nkill", path := exportPath "nkill",
                 rows := badRows ex4 nkillBad,
                 preview := (dedupFirst ((invalidIdx nkillBad).map
                   (fun i => nkillBad.cells.getD i Val.na))).take 10 } ∧
    (processNumericCol ex4 "nkill").1.nrows = ex4.nrows :=
  ⟨rfl,
   (quarantine_export_behavior ex4 "nkill" nkillBad rfl (by decide)).1,
   (quarantine_export_behavior ex4 "nkill" nkillBad rfl (by decide)).2.2.2.2⟩

theorem dropSparse_nrows (s : Table) : (dropSparse s).nrows = s.nrows := rfl

theorem dropExplicit_nrows (s : Table) : (dropExplicit s).nrows = s.nrows := rfl

theorem renameCols_nrows (s : Table) : (renameCols s).nrows = s.nrows := rfl

theorem alignTable_eq (s : Table) : alignTable s = s := rfl

theorem dropMissingLatLon_ok {t t' : Table} (h : dropMissingLatLon t = .ok t') :
    ∃ la lo, getCol t "latitude" = some la ∧ getCol t "longitude" = some lo ∧
      t' = { nrows := (List.zipWith keepRow la.cells lo.cells).count true,
             cols := t.cols.map (fun c =>
               { c with cells := (maskFilter
                   (List.zipWith keepRow la.cells lo.cells) c.cells) }) } := by
  unfold dropMissingLatLon at h
  cases hla : getCol t "latitude" with
  | none => rw [hla] at h; cases h
  | some la =>
    rw [hla] at h
    cases hlo : getCol t "longitude" with
    | none => rw [hlo] at h; cases h
    | some lo =>
      rw [hlo] at h
      exact ⟨la, lo, rfl, rfl, (Except.ok.inj h).symm⟩

theorem dropLatLon_names {t t' : Table} (h : dropMissingLatLon t = .ok t') :
    colNames t' = colNames t := by
  rcases dropMissingLatLon_ok h with ⟨la, lo, _, _, he⟩
  subst he
  unfold colNames
  rw [List.map_map]
  apply List.map_congr_left
  intro c _
  rfl

theorem preFilter_names {t t2 : Table} (h : preFilter t = .ok t2) :
    colNames t2 = colNames t ∧ t2.nrows = t.nrows ∧ (lenOK t → lenOK t2) := by
  unfold preFilter coerceBinary at h
  obtain ⟨h1, h2, h3⟩ := coerceBinaryAux_ok binary_cols _ _ h
  refine ⟨h1.trans (colNames_textNormalize t), h2.trans rfl,
    fun hl => h3 (lenOK_textNormalize t hl)⟩

theorem quarantineCoerce_names (s : Table) :
    colNames (quarantineCoerce s) = colNames s := by
  unfold quarantineCoerce quarantineStep
  exact quarantineAux_fst_names expected_numeric_cols s []

theorem expected_not_target :
    ∀ x ∈ expected_numeric_cols, ¬ x ∈ renameTargets := by decide

/-- C5: for every column of the fixed numeric-check list, whenever the pipeline
succeeds (and no raw column is already named like a rename target, so names
stay unambiguous), every cell of the output column carrying that column's
final — possibly renamed — name is numeric or the missing marker; no raw
unparseable text remains. -/
theorem numeric_cols_clean (t out : Table) (ncol : String)
    (h : pipeline t = .ok out) (hmem : ncol ∈ expected_numeric_cols)
    (hfresh : ∀ n ∈ colNames t, ¬ n ∈ renameTargets) :
    ∀ c ∈ out.cols, c.name = renameName ncol → c.cells.all numOrNa = true := by
  rcases pipeline_ok h with ⟨t2, t3, t4, hp, hd, hf, hout⟩
  subst hout
  intro c hc hname
  unfold postFill at hc
  have hc8 := (dropSparse_mem hc).1
  have hc7 := (dropExplicit_mem hc8).1
  rcases renameCols_mem hc7 with ⟨c6, hc6, hn6, hcell6⟩
  have hnames6 : colNames (quarantineCoerce (alignTable t4)) = colNames t := by
    rw [quarantineCoerce_names]
    show colNames t4 = colNames t
    rw [(fillDefaults_frame hf).1, dropLatLon_names hd, (preFilter_names hp).1]
  have h6fresh : ¬ c6.name ∈ renameTargets := by
    apply hfresh
    rw [← hnames6]
    exact List.mem_map.mpr ⟨c6, hc6, rfl⟩
  have hncolfresh : ¬ ncol ∈ renameTargets := expected_not_target ncol hmem
  have hceq : c6.name = ncol :=
    renameName_inj c6.name ncol h6fresh hncolfresh (hn6.symm.trans hname)
  have hmem6 : c6.name ∈ expected_numeric_cols := hceq ▸ hmem
  have hall6 : c6.cells.all numOrNa = true :=
    quarantineCoerce_covered (alignTable t4) c6 hc6 hmem6
  rw [hcell6]
  exact hall6

theorem numeric_cols_clean_witness :
    ("nkill" ∈ expected_numeric_cols) ∧
      ∀ c ∈ outFull.cols, c.name = renameName "nkill" →
        c.cells.all numOrNa = true :=
  ⟨by decide, numeric_cols_clean exFull outFull "nkill" rfl (by decide) (by decide)⟩

/-- C2: row-count accounting.  The final row count equals the initial row count
minus the number of rows with missing latitude or longitude as counted at the
geolocation filter; moreover the quarantine step never changes the row count
and the binary coercion never changes the row count — the filter is the only
row-dropping step. -/
theorem row_count_accounting (t t2 out : Table) (hlen : lenOK t)
    (hp : preFilter t = .ok t2) (h : pipeline t = .ok out) :
    out.nrows + missingLatLonCount t2 = t.nrows ∧
    out.nrows = t.nrows - missingLatLonCount t2 ∧
    (∀ s : Table, (quarantineCoerce s).nrows = s.nrows) ∧
    (∀ s u : Table, coerceBinary s = .ok u → u.nrows = s.nrows) := by
  have hq : ∀ s : Table, (quarantineCoerce s).nrows = s.nrows := by
    intro s
    unfold quarantineCoerce quarantineStep
    exact quarantineAux_fst_nrows expected_numeric_cols s []
  have hcb : ∀ s u : Table, coerceBinary s = .ok u → u.nrows = s.nrows := by
    intro s u hcu
    exact (coerceBinaryAux_ok binary_cols s u hcu).2.1
  rcases pipeline_ok h with ⟨t2', t3, t4, hp', hd, hf, hout⟩
  rw [hp] at hp'
  have ht2 : t2 = t2' := Except.ok.inj hp'
  subst ht2
  have hout_nrows : out.nrows = t4.nrows := by
    rw [hout]
    unfold postFill
    rw [dropSparse_nrows, dropExplicit_nrows, renameCols_nrows, hq, alignTable_eq]
  have h4 : t4.nrows = t3.nrows := (fillDefaults_frame hf).2.1
  rcases dropMissingLatLon_ok hd with ⟨la, lo, hla, hlo, he3⟩
  have h3 : t3.nrows = (List.zipWith keepRow la.cells lo.cells).count true := by
    rw [he3]
  have hm : missingLatLonCount t2
      = (List.zipWith (fun a b => isNa a || isNa b) la.cells lo.cells).count true := by
    unfold missingLatLonCount
    rw [hla, hlo]
  have hlen2 : lenOK t2 := (preFilter_names hp).2.2 hlen
  have hlalen : la.cells.length = t2.nrows :=
    hlen2 la (List.mem_of_find?_eq_some hla)
  have hlolen : lo.cells.length = t2.nrows :=
    hlen2 lo (List.mem_of_find?_eq_some hlo)
  have hziplen : (List.zipWith keepRow la.cells lo.cells).length = t2.nrows := by
    rw [List.length_zipWith, hlalen, hlolen]
    exact Nat.min_self _
  have hsum := keep_drop_count la.cells lo.cells
  have ht2n : t2.nrows = t.nrows := (preFilter_names hp).2.1
  have heq : out.nrows + missingLatLonCount t2 = t.nrows := by
    rw [hout_nrows, h4, h3, hm, hsum, hziplen, ht2n]
  exact ⟨heq, by omega, hq, hcb⟩

theorem row_count_accounting_witness :
    lenOK exFull ∧ outFull.nrows + missingLatLonCount preFull = exFull.nrows :=
  ⟨by decide, (row_count_accounting exFull preFull outFull (by decide) rfl rfl).1⟩

theorem getCol_name {t : Table} {n : String} {c : Column}
    (h : getCol t n = some c) : c.name = n := by
  unfold getCol at h
  have h0 := List.find?_some h
  simpa using h0

theorem getCol_mem {t : Table} {n : String} {c : Column}
    (h : getCol t n = some c) : c ∈ t.cols := by
  unfold getCol at h
  exact List.mem_of_find?_eq_some h

theorem quarantineCoerce_frame (s : Table) :
    ∀ c' ∈ (quarantineCoerce s).cols, ∃ c ∈ s.cols, c'.name = c.name ∧
      (c'.cells = c.cells ∨
        (c'.name ∈ expected_numeric_cols ∧ c'.cells.all numOrNa = true)) := by
  unfold quarantineCoerce quarantineStep
  exact quarantineAux_frame expected_numeric_cols s []

/-- C1: whenever the pipeline succeeds on a table with distinct column names,
the exported table still carries a latitude column and a longitude column, and
every value in every column named latitude or longitude is non-missing: the
geolocation filter removes all rows with a missing coordinate and no later
step reintroduces a missing value there or removes those columns. -/
theorem latlon_nonmissing (t out : Table) (hnd : (colNames t).Nodup)
    (h : pipeline t = .ok out) :
    (∃ c ∈ out.cols, c.name = "latitude") ∧
    (∃ c ∈ out.cols, c.name = "longitude") ∧
    ∀ c ∈ out.cols, (c.name = "latitude" ∨ c.name = "longitude") →
      ∀ v ∈ c.cells, isNa v = false := by
  rcases pipeline_ok h with ⟨t2, t3, t4, hp, hd, hf, hout⟩
  rcases dropMissingLatLon_ok hd with ⟨la, lo, hla, hlo, he3⟩
  have hnd2 : (colNames t2).Nodup := by
    rw [(preFilter_names hp).1]
    exact hnd
  have key : ∀ c8 ∈ (renameCols (quarantineCoerce (alignTable t4))).cols,
      (c8.name = "latitude" ∨ c8.name = "longitude") →
      ∀ v ∈ c8.cells, isNa v = false := by
    intro c8 hc8 hn v hv
    rcases renameCols_mem hc8 with ⟨c6, hc6, hn6, hcell6⟩
    have hc6name : c6.name = c8.name := by
      rcases hn with hl | hl
      · have hfix : c6.name = "latitude" :=
          renameName_fixed c6.name "latitude" (by decide) (hn6.symm.trans hl)
        rw [hfix, hl]
      · have hfix : c6.name = "longitude" :=
          renameName_fixed c6.name "longitude" (by decide) (hn6.symm.trans hl)
        rw [hfix, hl]
    rcases quarantineCoerce_frame (alignTable t4) c6 hc6
      with ⟨c4, hc4, hn46, hd46⟩
    rw [alignTable_eq] at hc4
    rcases hd46 with hcell46 | ⟨hm6, _⟩
    · rcases (fillDefaults_frame hf).2.2 c4 hc4 with ⟨c3, hc3, hn34, hd34⟩
      rcases hd34 with hcell34 | hnona4
      · rw [he3] at hc3
        rcases List.mem_map.mp hc3 with ⟨c2, hc2, he32⟩
        have hc23 : c2.name = c3.name := by rw [← he32]
        have hc3cells : c3.cells
            = maskFilter (List.zipWith keepRow la.cells lo.cells) c2.cells := by
          rw [← he32]
        have hc2name : c2.name = c8.name := by
          rw [hc23, ← hn34, ← hn46, hc6name]
        rcases hn with hl | hl
        · have hc2lat : c2.name = "latitude" := by rw [hc2name, hl]
          have hgc : getCol t2 "latitude" = some c2 := by
            have hg0 := getCol_of_nodup t2 hnd2 c2 hc2
            rw [hc2lat] at hg0
            exact hg0
          have hc2la : c2 = la := (Option.some.inj (hla.symm.trans hgc)).symm
          rw [hcell6, hcell46, hcell34, hc3cells, hc2la] at hv
          exact maskFilter_keep_left la.cells lo.cells v hv
        · have hc2lon : c2.name = "longitude" := by rw [hc2name, hl]
          have hgc : getCol t2 "longitude" = some c2 := by
            have hg0 := getCol_of_nodup t2 hnd2 c2 hc2
            rw [hc2lon] at hg0
            exact hg0
          have hc2lo : c2 = lo := (Option.some.inj (hlo.symm.trans hgc)).symm
          rw [hcell6, hcell46, hcell34, hc3cells, hc2lo] at hv
          exact maskFilter_keep_right la.cells lo.cells v hv
      · rw [hcell6, hcell46] at hv
        exact hnona4 v hv
    · rcases hn with hl | hl
      · have hbad : ("latitude" : String) ∈ expected_numeric_cols := by
          rw [← hl, ← hc6name]
          exact hm6
        exact absurd hbad (by decide)
      · have hbad : ("longitude" : String) ∈ expected_numeric_cols := by
          rw [← hl, ← hc6name]
          exact hm6
        exact absurd hbad (by decide)
  have presence : ∀ (nm : String) (cX : Column),
      (nm = "latitude" ∨ nm = "longitude") →
      getCol t2 nm = some cX →
      drop_list.contains nm = false →
      renameName nm = nm →
      ∃ c ∈ out.cols, c.name = nm := by
    intro nm cX hnm hX hdropnm hren
    have hXname : cX.name = nm := getCol_name hX
    have hXmem : cX ∈ t2.cols := getCol_mem hX
    have h3mem : ({cX with cells := (maskFilter
        (List.zipWith keepRow la.cells lo.cells) cX.cells)} : Column)
        ∈ t3.cols := by
      rw [he3]
      exact List.mem_map.mpr ⟨cX, hXmem, rfl⟩
    have h3names : nm ∈ colNames t3 := List.mem_map.mpr ⟨_, h3mem, hXname⟩
    have h4names : nm ∈ colNames t4 := by
      rw [(fillDefaults_frame hf).1]
      exact h3names
    have h6names : nm ∈ colNames (quarantineCoerce (alignTable t4)) := by
      rw [quarantineCoerce_names, alignTable_eq]
      exact h4names
    rcases List.mem_map.mp h6names with ⟨c6, hc6, hc6name⟩
    have h8mem := renameCols_mem_of _ c6 hc6
    have h8name : ({c6 with name := renameName c6.name} : Column).name = nm := by
      show renameName c6.name = nm
      rw [hc6name, hren]
    have hnona := key _ h8mem (by rw [h8name]; exact hnm)
    have hsp : sparseCol ({c6 with name := renameName c6.name} : Column) = false :=
      sparseCol_false_of_noNa _ hnona
    have h9 : ({c6 with name := renameName c6.name} : Column)
        ∈ (dropExplicit (renameCols (quarantineCoerce (alignTable t4)))).cols :=
      dropExplicit_mem_of h8mem (by rw [h8name]; exact hdropnm)
    have h10 := dropSparse_mem_of h9 hsp
    refine ⟨_, ?_, h8name⟩
    rw [hout]
    unfold postFill
    exact h10
  refine ⟨presence "latitude" la (Or.inl rfl) hla (by decide) rfl,
          presence "longitude" lo (Or.inr rfl) hlo (by decide) rfl, ?_⟩
  intro c hc hn
  rw [hout] at hc
  unfold postFill at hc
  exact key c (dropExplicit_mem (dropSparse_mem hc).1).1 hn

theorem latlon_nonmissing_witness :
    (colNames exFull).Nodup ∧
      ((∃ c ∈ outFull.cols, c.name = "latitude") ∧
       (∃ c ∈ outFull.cols, c.name = "longitude") ∧
       ∀ c ∈ outFull.cols, (c.name = "latitude" ∨ c.name = "longitude") →
         ∀ v ∈ c.cells, isNa v = false) :=
  ⟨by decide, latlon_nonmissing exFull outFull (by decide) rfl⟩
